import Mathlib

/-
Verification development for the DSP core of the Signal_Processing_Project
repository (PCB_signal_processing_2.py and Audio_signal_processing.py).

Sample buffers are lists of real numbers. The external numeric routines the
two files call (scipy.signal.butter, scipy.signal.lfilter, scipy.fft.fft,
numpy.fft.fftfreq, the numpy.random draws) are not part of the repository;
they are modelled from the specification, as flagged in the corresponding
doc comments. Everything else is a direct embedding of the Python source.
-/

namespace SignalProcessing

/-- Modelled from the spec: the filter-kind argument of the external
scipy.signal.butter design routine (the btype string in the Python source). -/
inductive BType where
  | low
  | high
  | bandstop
  deriving DecidableEq

/-- Modelled from the spec: scipy.signal.lfilter, the causal linear recursive
filter (standard difference-equation evaluation) with zero initial state.
The helper walks the input buffer carrying the input history and the output
history, most recent sample first; the output sample is
(sum of b i x (n - i) minus sum of a j y (n - j)) divided by a 0. -/
noncomputable def lfilterGo (b a : List ℝ) : List ℝ → List ℝ → List ℝ → List ℝ
  | [], _, _ => []
  | xn :: rest, xh, yh =>
    let xh2 := xn :: xh
    let yn := (((List.range b.length).map fun i => b.getD i 0 * xh2.getD i 0).sum -
        ((List.range (a.length - 1)).map fun j => a.getD (j + 1) 0 * yh.getD j 0).sum) /
      a.getD 0 0
    yn :: lfilterGo b a rest xh2 (yn :: yh)

/-- Modelled from the spec: scipy.signal.lfilter on a whole buffer, starting
from empty (all-zero) histories. -/
noncomputable def lfilter (b a signal : List ℝ) : List ℝ :=
  lfilterGo b a signal [] []

/-- Embedding of generate_signal from PCB_signal_processing_2.py. The numpy
sign and floor functions are Real.sign and the integer floor. -/
noncomputable def generate_signal (signal_type : String) (frequency : ℝ)
    (time : List ℝ) : List ℝ :=
  if signal_type = "sine" then
    time.map fun t => Real.sin (2 * Real.pi * frequency * t)
  else if signal_type = "square" then
    time.map fun t => Real.sign (Real.sin (2 * Real.pi * frequency * t))
  else if signal_type = "sawtooth" then
    time.map fun t => 2 * (t * frequency - (Int.floor (0.5 + t * frequency) : ℝ))
  else if signal_type = "modulated" then
    let carrier_freq : ℝ := 10
    let modulator_freq : ℝ := 0.5
    time.map fun t =>
      Real.sin (2 * Real.pi * carrier_freq * t) * Real.sin (2 * Real.pi * modulator_freq * t)
  else
    time.map fun t => Real.sin (2 * Real.pi * frequency * t)

/-- Modelled from the spec: an injectable random source standing for the
numpy.random draws used by add_noise (normal, randint, uniform); each field
takes the distribution parameters and the index of the draw. -/
structure RandomSource where
  normal : ℝ → ℝ → ℕ → ℝ
  randint : ℕ → ℕ → ℕ → ℕ
  uniform : ℝ → ℝ → ℕ → ℝ

/-- Embedding of add_noise from PCB_signal_processing_2.py. The gaussian
branch draws one normal sample per position; the impulse branch overwrites
5 percent of the positions of an all-zero noise buffer (later draws win on
duplicate indices, as in the vectorized numpy assignment); the
frequency-interference branch adds a sinusoid at one uniformly drawn
frequency; any other kind leaves the noise buffer at zero. -/
noncomputable def add_noise (signal : List ℝ) (noise_type : String) (intensity : ℝ)
    (rng : RandomSource) : List ℝ :=
  let n := signal.length
  let noise : List ℝ :=
    if noise_type = "gaussian" then
      (List.range n).map fun i => rng.normal 0 intensity i
    else if noise_type = "impulse" then
      let num_impulses := ⌊(0.05 : ℝ) * n⌋₊
      (List.range num_impulses).foldl
        (fun ns k => ns.set (rng.randint 0 n k) (rng.uniform (-intensity * 2) (intensity * 2) k))
        (List.replicate n 0)
    else if noise_type = "frequency_interference" then
      let interference_freq := rng.uniform 0.5 5 0
      (List.range n).map fun i => intensity * Real.sin (2 * Real.pi * interference_freq * i)
    else
      List.replicate n 0
  List.zipWith (fun s e => s + e) signal noise

/-- Modelled from the spec: the angle of the k-th analog Butterworth
prototype pole of order N (scipy buttap), pi (2 k + 1 - N) / (2 N). -/
noncomputable def buttapAngle (N k : ℕ) : ℝ :=
  Real.pi * (2 * (k : ℝ) + 1 - N) / (2 * N)

/-- Modelled from the spec: the analog Butterworth prototype poles (scipy
buttap); for order N the poles are -exp(I pi (2 k + 1 - N) / (2 N)) for k
below N, all in the open left half plane. -/
noncomputable def buttap (N : ℕ) : List ℂ :=
  (List.range N).map fun k => -Complex.exp (Complex.I * (buttapAngle N k : ℂ))

/-- Modelled from the spec: scipy lp2lp_zpk, scaling an analog lowpass
prototype to the warped cutoff wo. -/
noncomputable def lp2lp_zpk (z p : List ℂ) (k : ℂ) (wo : ℝ) : List ℂ × List ℂ × ℂ :=
  (z.map fun x => (wo : ℂ) * x,
   p.map fun x => (wo : ℂ) * x,
   k * (wo : ℂ) ^ (p.length - z.length))

/-- Modelled from the spec: scipy lp2hp_zpk, inverting an analog lowpass
prototype into a highpass at the warped cutoff wo. -/
noncomputable def lp2hp_zpk (z p : List ℂ) (k : ℂ) (wo : ℝ) : List ℂ × List ℂ × ℂ :=
  let degree := p.length - z.length
  ((z.map fun x => (wo : ℂ) / x) ++ List.replicate degree 0,
   p.map fun x => (wo : ℂ) / x,
   k * ((((z.map fun x => -x).prod / (p.map fun x => -x).prod).re : ℝ) : ℂ))

/-- Modelled from the spec: the principal complex square root used by the
band-stop transformation (numpy sqrt on complex arrays). -/
noncomputable def csqrt (x : ℂ) : ℂ := x ^ ((1 : ℂ) / 2)

/-- Modelled from the spec: scipy lp2bs_zpk, turning an analog lowpass
prototype into a band-stop at center wo with bandwidth bw. -/
noncomputable def lp2bs_zpk (z p : List ℂ) (k : ℂ) (wo bw : ℝ) : List ℂ × List ℂ × ℂ :=
  let degree := p.length - z.length
  let z_hp := z.map fun x => ((bw / 2 : ℝ) : ℂ) / x
  let p_hp := p.map fun x => ((bw / 2 : ℝ) : ℂ) / x
  ((z_hp.map fun x => x + csqrt (x ^ 2 - (wo : ℂ) ^ 2)) ++
     (z_hp.map fun x => x - csqrt (x ^ 2 - (wo : ℂ) ^ 2)) ++
     List.replicate degree (Complex.I * (wo : ℂ)) ++
     List.replicate degree (-(Complex.I * (wo : ℂ))),
   (p_hp.map fun x => x + csqrt (x ^ 2 - (wo : ℂ) ^ 2)) ++
     (p_hp.map fun x => x - csqrt (x ^ 2 - (wo : ℂ) ^ 2)),
   k * ((((z.map fun x => -x).prod / (p.map fun x => -x).prod).re : ℝ) : ℂ))

/-- Modelled from the spec: scipy bilinear_zpk at internal rate fs, mapping
analog zeros and poles s to (2 fs + s) / (2 fs - s) and filling the missing
zeros at -1. -/
noncomputable def bilinear_zpk (z p : List ℂ) (k : ℂ) (fs : ℝ) : List ℂ × List ℂ × ℂ :=
  let degree := p.length - z.length
  let fs2 : ℂ := 2 * (fs : ℂ)
  ((z.map fun x => (fs2 + x) / (fs2 - x)) ++ List.replicate degree (-1),
   p.map fun x => (fs2 + x) / (fs2 - x),
   k * ((((z.map fun x => fs2 - x).prod / (p.map fun x => fs2 - x).prod).re : ℝ) : ℂ))

/-- Modelled from the spec: numpy poly — the coefficient list (highest degree
first) of the monic polynomial with the given roots, built by convolving
with one linear factor per root. -/
noncomputable def np_poly (roots : List ℂ) : List ℂ :=
  roots.foldl
    (fun c r => List.zipWith (fun u v => u + v) (c ++ [0]) ((0 :: c).map fun x => -r * x))
    [1]

/-- Modelled from the spec: scipy zpk2tf — numerator and denominator
coefficient lists of the transfer function from zeros, poles and gain, with
the real parts taken as in the scipy implementation. -/
noncomputable def zpk2tf (z p : List ℂ) (k : ℂ) : List ℝ × List ℝ :=
  ((np_poly z).map fun c => (k * c).re, (np_poly p).map Complex.re)

/-- Modelled from the spec: the zeros, poles and gain of the digital
Butterworth design of scipy.signal.butter (iirfilter): prototype poles,
frequency pre-warping at the internal rate fs = 2, the lowpass, highpass or
band-stop transformation, then the bilinear transform. -/
noncomputable def butterZpk (order : ℕ) (wn : List ℝ) (btype : BType) :
    List ℂ × List ℂ × ℂ :=
  let warped := wn.map fun w => 2 * 2 * Real.tan (Real.pi * w / 2)
  let zpk :=
    match btype with
    | BType.low => lp2lp_zpk [] (buttap order) 1 (warped.getD 0 0)
    | BType.high => lp2hp_zpk [] (buttap order) 1 (warped.getD 0 0)
    | BType.bandstop =>
        lp2bs_zpk [] (buttap order) 1 (Real.sqrt (warped.getD 0 0 * warped.getD 1 0))
          (warped.getD 1 0 - warped.getD 0 0)
  bilinear_zpk zpk.1 zpk.2.1 zpk.2.2 2

/-- Modelled from the spec: the coefficient pair scipy.signal.butter returns
on a successful design — the transfer function of the digital Butterworth
filter with the zeros, poles and gain of butterZpk. -/
noncomputable def butterCoeffs (order : ℕ) (wn : List ℝ) (btype : BType) :
    List ℝ × List ℝ :=
  zpk2tf (butterZpk order wn btype).1 (butterZpk order wn btype).2.1
    (butterZpk order wn btype).2.2

/-- Modelled from the spec: scipy.signal.butter — every normalized cutoff
must be strictly between 0 and 1 and, for band-type filters, the low cutoff
must be strictly below the high cutoff; otherwise the design fails with
InvalidParameter. On success it returns the transfer-function coefficient
pair of the designed digital Butterworth filter. -/
noncomputable def butter (order : ℕ) (wn : List ℝ) (btype : BType) :
    Except String (List ℝ × List ℝ) :=
  if ∃ w ∈ wn, w ≤ 0 ∨ 1 ≤ w then Except.error "InvalidParameter"
  else if btype = BType.bandstop ∧ wn.getD 1 0 ≤ wn.getD 0 0 then
    Except.error "InvalidParameter"
  else
    Except.ok (butterCoeffs order wn btype)

/-- Modelled from the spec: the denominator polynomial of the designed
transfer function — the monic polynomial whose roots are the poles of
butterZpk (numpy poly of the pole list, of which zpk2tf takes the
coefficient list). The poles of the designed filter are its roots. -/
noncomputable def butterDenomPoly (order : ℕ) (wn : List ℝ) (btype : BType) :
    Polynomial ℂ :=
  ((butterZpk order wn btype).2.1.map fun p => Polynomial.X - Polynomial.C p).prod

/-- Embedding of butter_lowpass from PCB_signal_processing_2.py. -/
noncomputable def butter_lowpass (cutoff fs : ℝ) (order : ℕ) :
    Except String (List ℝ × List ℝ) :=
  let nyquist := 0.5 * fs
  let normal_cutoff := cutoff / nyquist
  butter order [normal_cutoff] BType.low

/-- Embedding of butter_highpass from PCB_signal_processing_2.py. -/
noncomputable def butter_highpass (cutoff fs : ℝ) (order : ℕ) :
    Except String (List ℝ × List ℝ) :=
  let nyquist := 0.5 * fs
  let normal_cutoff := cutoff / nyquist
  butter order [normal_cutoff] BType.high

/-- Embedding of butter_bandstop from PCB_signal_processing_2.py. -/
noncomputable def butter_bandstop (lowcut highcut fs : ℝ) (order : ℕ) :
    Except String (List ℝ × List ℝ) :=
  let nyquist := 0.5 * fs
  let low := lowcut / nyquist
  let high := highcut / nyquist
  butter order [low, high] BType.bandstop

/-- Embedding of apply_filter from PCB_signal_processing_2.py. A failed
design (a propagating scipy exception in the Python source) is an error
value; an unrecognized filter type is the ValueError the source raises. -/
noncomputable def apply_filter (signal : List ℝ) (filter_type : String)
    (cutoff fs : ℝ) : Except String (List ℝ) :=
  if filter_type = "Low-Pass (RC)" then
    (butter_lowpass cutoff fs 5).map fun ba => lfilter ba.1 ba.2 signal
  else if filter_type = "High-Pass (RC)" then
    (butter_highpass cutoff fs 5).map fun ba => lfilter ba.1 ba.2 signal
  else if filter_type = "Band-Stop" then
    (butter_bandstop 0.5 5 fs 5).map fun ba => lfilter ba.1 ba.2 signal
  else
    Except.error "Unknown filter type."

/-- Embedding of butter_filter from Audio_signal_processing.py. -/
noncomputable def butter_filter (order : ℕ) (cutoff fs : ℝ) (btype : BType) :
    Except String (List ℝ × List ℝ) :=
  let nyquist := 0.5 * fs
  let normal_cutoff := cutoff / nyquist
  butter order [normal_cutoff] btype

/-- Embedding of apply_high_pass from Audio_signal_processing.py. -/
noncomputable def apply_high_pass (signal : List ℝ) (cutoff fs : ℝ) :
    Except String (List ℝ) :=
  (butter_filter 4 cutoff fs BType.high).map fun ba => lfilter ba.1 ba.2 signal

/-- Embedding of apply_low_pass from Audio_signal_processing.py. -/
noncomputable def apply_low_pass (signal : List ℝ) (cutoff fs : ℝ) :
    Except String (List ℝ) :=
  (butter_filter 4 cutoff fs BType.low).map fun ba => lfilter ba.1 ba.2 signal

/-- Embedding of apply_band_pass from Audio_signal_processing.py: both stage
designs are computed (in source order, so a failure of the low-pass design
at the high cutoff surfaces first), then the low-pass output feeds the
high-pass stage. -/
noncomputable def apply_band_pass (signal : List ℝ) (lowcut highcut fs : ℝ) :
    Except String (List ℝ) :=
  match butter_filter 4 highcut fs BType.low with
  | Except.error e => Except.error e
  | Except.ok bl =>
    match butter_filter 4 lowcut fs BType.high with
    | Except.error e => Except.error e
    | Except.ok bh =>
      let low_passed := lfilter bl.1 bl.2 signal
      let band_passed := lfilter bh.1 bh.2 low_passed
      Except.ok band_passed

/-- Modelled from the spec: the discrete Fourier transform coefficient X_k of
the buffer (scipy.fft.fft), the sum over n of x_n exp (-2 pi I k n / N). -/
noncomputable def dft (x : List ℝ) (k : ℕ) : ℂ :=
  ∑ n ∈ Finset.range x.length,
    ((x.getD n 0 : ℝ) : ℂ) * Complex.exp (-(2 * (Real.pi : ℂ) * Complex.I * k * n) / x.length)

/-- Modelled from the spec: numpy fftfreq — the sample-frequency axis for a
length-n transform with sample spacing d; entry k is k / (n d) on the
non-negative half and (k - n) / (n d) on the negative half. -/
noncomputable def fftfreq (n : ℕ) (d : ℝ) : List ℝ :=
  (List.range n).map fun k =>
    (if k < (n - 1) / 2 + 1 then (k : ℝ) else (k : ℝ) - n) * (1 / (n * d))

/-- Embedding of the spectral-analysis part of process_signal from
PCB_signal_processing_2.py: the first half (integer division) of the
frequency axis for spacing T = 1 / fs, paired with the scaled magnitudes
2 / N times abs (X_k). -/
noncomputable def process_signal_spectrum (signal : List ℝ) (fs : ℝ) :
    List (ℝ × ℝ) :=
  let N := signal.length
  let T := 1 / fs
  List.zip ((fftfreq N T).take (N / 2))
    (((List.range N).map fun k => 2 / (N : ℝ) * Complex.abs (dft signal k)).take (N / 2))

/-- Modelled from the spec: the band-pass contract stated as two cascaded
single-edge stages — the low-pass stage designed at the high cutoff is
applied to the input, then the high-pass stage designed at the low cutoff is
applied to the intermediate buffer. -/
noncomputable def band_pass_cascade_spec (signal : List ℝ) (lowcut highcut fs : ℝ) :
    Except String (List ℝ) :=
  match apply_low_pass signal highcut fs with
  | Except.error e => Except.error e
  | Except.ok mid => apply_high_pass mid lowcut fs

/-- A concrete all-zero random source, used to instantiate theorems about
add_noise on concrete inputs. -/
def zeroRng : RandomSource :=
  { normal := fun _ _ _ => 0, randint := fun _ _ _ => 0, uniform := fun _ _ _ => 0 }

theorem lfilterGo_length (b a : List ℝ) :
    ∀ (x xh yh : List ℝ), (lfilterGo b a x xh yh).length = x.length := by
  intro x
  induction x with
  | nil => intro xh yh; rfl
  | cons xn rest ih =>
    intro xh yh
    simp only [lfilterGo, List.length_cons]
    rw [ih]

theorem lfilter_length (b a x : List ℝ) : (lfilter b a x).length = x.length :=
  lfilterGo_length b a x [] []

theorem zipWith_add_replicate_zero :
    ∀ s : List ℝ, List.zipWith (fun u v => u + v) s (List.replicate s.length 0) = s := by
  intro s
  induction s with
  | nil => rfl
  | cons x rest ih => simp only [List.length_cons, List.replicate, List.zipWith, add_zero, ih]

theorem add_noise_unknown_aux (signal : List ℝ) (noise_type : String) (intensity : ℝ)
    (rng : RandomSource) (h1 : noise_type ≠ "gaussian") (h2 : noise_type ≠ "impulse")
    (h3 : noise_type ≠ "frequency_interference") :
    add_noise signal noise_type intensity rng = signal := by
  unfold add_noise
  simp only [if_neg h1, if_neg h2, if_neg h3]
  exact zipWith_add_replicate_zero signal

/-- C5: apply_band_pass is exactly the cascade of its two single-edge
stages: the low-pass filter designed at the high cutoff is applied first,
then the high-pass filter designed at the low cutoff is applied to the
intermediate buffer, and the second output is returned. -/
theorem band_pass_is_cascade (signal : List ℝ) (lowcut highcut fs : ℝ) :
    apply_band_pass signal lowcut highcut fs =
      band_pass_cascade_spec signal lowcut highcut fs := by
  unfold apply_band_pass band_pass_cascade_spec apply_low_pass apply_high_pass
  cases butter_filter 4 highcut fs BType.low with
  | error e => rfl
  | ok bl =>
    cases butter_filter 4 lowcut fs BType.high with
    | error e => rfl
    | ok bh => rfl

/-- C6: the modulated signal kind ignores the requested frequency: for any
time grid the outputs for any two frequencies agree, and each sample is the
product of the fixed 10 Hz carrier and the fixed 0.5 Hz modulator. -/
theorem modulated_ignores_frequency (time : List ℝ) (f1 f2 : ℝ) :
    generate_signal "modulated" f1 time = generate_signal "modulated" f2 time ∧
    generate_signal "modulated" f1 time =
      time.map fun t => Real.sin (2 * Real.pi * 10 * t) * Real.sin (2 * Real.pi * 0.5 * t) := by
  have hs : ("modulated" : String) ≠ "sine" := by decide
  have hq : ("modulated" : String) ≠ "square" := by decide
  have hw : ("modulated" : String) ≠ "sawtooth" := by decide
  unfold generate_signal
  simp only [if_neg hs, if_neg hq, if_neg hw, if_pos rfl]
  exact ⟨rfl, rfl⟩

/-- C7: injecting noise of an unrecognized kind returns the input signal
unchanged (zero noise added), for every signal, intensity and random
source. -/
theorem add_noise_unknown_kind (signal : List ℝ) (noise_type : String) (intensity : ℝ)
    (rng : RandomSource) (h1 : noise_type ≠ "gaussian") (h2 : noise_type ≠ "impulse")
    (h3 : noise_type ≠ "frequency_interference") :
    add_noise signal noise_type intensity rng = signal :=
  add_noise_unknown_aux signal noise_type intensity rng h1 h2 h3

/-- C7 witness: the unrecognized kind unknown leaves a concrete signal
unchanged. -/
theorem add_noise_unknown_kind_witness :
    add_noise [1, 2] "unknown" 3 zeroRng = [1, 2] :=
  add_noise_unknown_kind [1, 2] "unknown" 3 zeroRng (by decide) (by decide) (by decide)

/-- C9: among the core operations only filter application fails on an
unrecognized kind: apply_filter errors for every filter type outside its
recognized set, while generate_signal falls back to the sine case and
add_noise returns the signal unchanged. -/
theorem unknown_kind_behavior :
    (∀ (signal : List ℝ) (ft : String) (cutoff fs : ℝ),
        ft ≠ "Low-Pass (RC)" → ft ≠ "High-Pass (RC)" → ft ≠ "Band-Stop" →
        apply_filter signal ft cutoff fs = Except.error "Unknown filter type.") ∧
    (∀ (kind : String) (frequency : ℝ) (time : List ℝ),
        kind ≠ "sine" → kind ≠ "square" → kind ≠ "sawtooth" → kind ≠ "modulated" →
        generate_signal kind frequency time = generate_signal "sine" frequency time) ∧
    (∀ (signal : List ℝ) (kind : String) (intensity : ℝ) (rng : RandomSource),
        kind ≠ "gaussian" → kind ≠ "impulse" → kind ≠ "frequency_interference" →
        add_noise signal kind intensity rng = signal) := by
  refine ⟨?_, ?_, ?_⟩
  · intro signal ft cutoff fs h1 h2 h3
    unfold apply_filter
    simp only [if_neg h1, if_neg h2, if_neg h3]
  · intro kind frequency time h1 h2 h3 h4
    unfold generate_signal
    simp only [if_neg h1, if_neg h2, if_neg h3, if_neg h4, if_pos rfl, ite_true]
  · intro signal kind intensity rng h1 h2 h3
    exact add_noise_unknown_aux signal kind intensity rng h1 h2 h3

/-- C9 witness: at the concrete unrecognized kinds (including the GUI option
Butterworth Low-Pass, which apply_filter rejects), the three behaviors hold
on concrete inputs. -/
theorem unknown_kind_behavior_witness :
    apply_filter [1, 2] "Butterworth Low-Pass" 2.5 100 =
      Except.error "Unknown filter type." ∧
    generate_signal "triangle" 5 [0, 1] = generate_signal "sine" 5 [0, 1] ∧
    add_noise [1, 2] "salt" 3 zeroRng = [1, 2] :=
  ⟨unknown_kind_behavior.1 [1, 2] "Butterworth Low-Pass" 2.5 100
      (by decide) (by decide) (by decide),
   unknown_kind_behavior.2.1 "triangle" 5 [0, 1]
      (by decide) (by decide) (by decide) (by decide),
   unknown_kind_behavior.2.2 [1, 2] "salt" 3 zeroRng
      (by decide) (by decide) (by decide)⟩

/-- C10: the Band-Stop branch of apply_filter ignores the caller-supplied
cutoff: the outputs for any two cutoff values coincide, and both equal the
filter designed by butter_bandstop with the fixed 0.5 and 5 band edges at
order 5. -/
theorem bandstop_ignores_cutoff (signal : List ℝ) (c1 c2 fs : ℝ) :
    apply_filter signal "Band-Stop" c1 fs = apply_filter signal "Band-Stop" c2 fs ∧
    apply_filter signal "Band-Stop" c1 fs =
      (butter_bandstop 0.5 5 fs 5).map fun ba => lfilter ba.1 ba.2 signal := by
  have h1 : ("Band-Stop" : String) ≠ "Low-Pass (RC)" := by decide
  have h2 : ("Band-Stop" : String) ≠ "High-Pass (RC)" := by decide
  unfold apply_filter
  simp only [if_neg h1, if_neg h2, if_pos rfl]
  exact ⟨trivial, rfl⟩

theorem butter_ok_single (order : ℕ) (w : ℝ) (bt : BType) (hbt : bt ≠ BType.bandstop)
    (h0 : 0 < w) (h1 : w < 1) :
    butter order [w] bt = Except.ok (butterCoeffs order [w] bt) := by
  have hA : ¬∃ x ∈ [w], x ≤ 0 ∨ 1 ≤ x := by
    rintro ⟨x, hx, hle⟩
    rw [List.mem_singleton] at hx
    subst hx
    rcases hle with h | h <;> linarith
  have hB : ¬(bt = BType.bandstop ∧ [w].getD 1 0 ≤ [w].getD 0 0) := fun hc => hbt hc.1
  unfold butter
  rw [if_neg hA, if_neg hB]

theorem butter_error_single (order : ℕ) (w : ℝ) (bt : BType) (h : w ≤ 0 ∨ 1 ≤ w) :
    butter order [w] bt = Except.error "InvalidParameter" := by
  unfold butter
  rw [if_pos ⟨w, List.mem_singleton.mpr rfl, h⟩]

theorem butter_error_range (order : ℕ) (wn : List ℝ) (bt : BType)
    (h : ∃ x ∈ wn, x ≤ 0 ∨ 1 ≤ x) :
    butter order wn bt = Except.error "InvalidParameter" := by
  unfold butter
  rw [if_pos h]

theorem butter_ok_pair (order : ℕ) (lo hi : ℝ) (h0lo : 0 < lo) (h1lo : lo < 1)
    (h0hi : 0 < hi) (h1hi : hi < 1) (hlh : lo < hi) :
    butter order [lo, hi] BType.bandstop =
      Except.ok (butterCoeffs order [lo, hi] BType.bandstop) := by
  have hA : ¬∃ x ∈ [lo, hi], x ≤ 0 ∨ 1 ≤ x := by
    rintro ⟨x, hx, hle⟩
    rcases List.mem_pair.mp hx with rfl | rfl <;> rcases hle with h | h <;> linarith
  have hB : ¬(BType.bandstop = BType.bandstop ∧ [lo, hi].getD 1 0 ≤ [lo, hi].getD 0 0) := by
    rintro ⟨-, hle⟩
    exact not_le.mpr hlh hle
  unfold butter
  rw [if_neg hA, if_neg hB]

theorem butter_error_low_ge_high (order : ℕ) (lo hi : ℝ) (h0lo : 0 < lo) (h1lo : lo < 1)
    (h0hi : 0 < hi) (h1hi : hi < 1) (hle : hi ≤ lo) :
    butter order [lo, hi] BType.bandstop = Except.error "InvalidParameter" := by
  have hA : ¬∃ x ∈ [lo, hi], x ≤ 0 ∨ 1 ≤ x := by
    rintro ⟨x, hx, hxle⟩
    rcases List.mem_pair.mp hx with rfl | rfl <;> rcases hxle with h | h <;> linarith
  unfold butter
  rw [if_neg hA, if_pos ⟨rfl, hle⟩]

/-- C4: every design call divides its cutoffs by the Nyquist frequency
0.5 fs; the design fails with InvalidParameter exactly when a normalized
cutoff is not strictly between 0 and 1 or, for the band-type design, the
low cutoff is not strictly below the high cutoff, and succeeds otherwise. -/
theorem design_validation :
    (∀ (cutoff fs : ℝ) (order : ℕ),
        ((0 < cutoff / (0.5 * fs) ∧ cutoff / (0.5 * fs) < 1) →
          butter_lowpass cutoff fs order =
            Except.ok (butterCoeffs order [cutoff / (0.5 * fs)] BType.low)) ∧
        (¬(0 < cutoff / (0.5 * fs) ∧ cutoff / (0.5 * fs) < 1) →
          butter_lowpass cutoff fs order = Except.error "InvalidParameter")) ∧
    (∀ (cutoff fs : ℝ) (order : ℕ),
        ((0 < cutoff / (0.5 * fs) ∧ cutoff / (0.5 * fs) < 1) →
          butter_highpass cutoff fs order =
            Except.ok (butterCoeffs order [cutoff / (0.5 * fs)] BType.high)) ∧
        (¬(0 < cutoff / (0.5 * fs) ∧ cutoff / (0.5 * fs) < 1) →
          butter_highpass cutoff fs order = Except.error "InvalidParameter")) ∧
    (∀ (order : ℕ) (cutoff fs : ℝ) (bt : BType), bt ≠ BType.bandstop →
        ((0 < cutoff / (0.5 * fs) ∧ cutoff / (0.5 * fs) < 1) →
          butter_filter order cutoff fs bt =
            Except.ok (butterCoeffs order [cutoff / (0.5 * fs)] bt)) ∧
        (¬(0 < cutoff / (0.5 * fs) ∧ cutoff / (0.5 * fs) < 1) →
          butter_filter order cutoff fs bt = Except.error "InvalidParameter")) ∧
    (∀ (lowcut highcut fs : ℝ) (order : ℕ),
        ((0 < lowcut / (0.5 * fs) ∧ lowcut / (0.5 * fs) < 1 ∧
          0 < highcut / (0.5 * fs) ∧ highcut / (0.5 * fs) < 1 ∧
          lowcut / (0.5 * fs) < highcut / (0.5 * fs)) →
          butter_bandstop lowcut highcut fs order =
            Except.ok (butterCoeffs order [lowcut / (0.5 * fs), highcut / (0.5 * fs)]
              BType.bandstop)) ∧
        (¬(0 < lowcut / (0.5 * fs) ∧ lowcut / (0.5 * fs) < 1 ∧
          0 < highcut / (0.5 * fs) ∧ highcut / (0.5 * fs) < 1 ∧
          lowcut / (0.5 * fs) < highcut / (0.5 * fs)) →
          butter_bandstop lowcut highcut fs order = Except.error "InvalidParameter")) := by
  have single : ∀ (cutoff fs : ℝ) (order : ℕ) (bt : BType), bt ≠ BType.bandstop →
      ((0 < cutoff / (0.5 * fs) ∧ cutoff / (0.5 * fs) < 1) →
        butter order [cutoff / (0.5 * fs)] bt =
          Except.ok (butterCoeffs order [cutoff / (0.5 * fs)] bt)) ∧
      (¬(0 < cutoff / (0.5 * fs) ∧ cutoff / (0.5 * fs) < 1) →
        butter order [cutoff / (0.5 * fs)] bt = Except.error "InvalidParameter") := by
    intro cutoff fs order bt hbt
    constructor
    · rintro ⟨h0, h1⟩
      exact butter_ok_single order _ bt hbt h0 h1
    · intro hn
      exact butter_error_single order _ bt ((not_and_or.mp hn).imp not_lt.mp not_lt.mp)
  have pair : ∀ (lowcut highcut fs : ℝ) (order : ℕ),
      ((0 < lowcut / (0.5 * fs) ∧ lowcut / (0.5 * fs) < 1 ∧
        0 < highcut / (0.5 * fs) ∧ highcut / (0.5 * fs) < 1 ∧
        lowcut / (0.5 * fs) < highcut / (0.5 * fs)) →
        butter order [lowcut / (0.5 * fs), highcut / (0.5 * fs)] BType.bandstop =
          Except.ok (butterCoeffs order [lowcut / (0.5 * fs), highcut / (0.5 * fs)]
            BType.bandstop)) ∧
      (¬(0 < lowcut / (0.5 * fs) ∧ lowcut / (0.5 * fs) < 1 ∧
        0 < highcut / (0.5 * fs) ∧ highcut / (0.5 * fs) < 1 ∧
        lowcut / (0.5 * fs) < highcut / (0.5 * fs)) →
        butter order [lowcut / (0.5 * fs), highcut / (0.5 * fs)] BType.bandstop =
          Except.error "InvalidParameter") := by
    intro lowcut highcut fs order
    constructor
    · rintro ⟨h1, h2, h3, h4, h5⟩
      exact butter_ok_pair order _ _ h1 h2 h3 h4 h5
    · intro hn
      by_cases hex : ∃ x ∈ [lowcut / (0.5 * fs), highcut / (0.5 * fs)], x ≤ 0 ∨ 1 ≤ x
      · exact butter_error_range order _ _ hex
      · push_neg at hex
        have hlo := hex (lowcut / (0.5 * fs)) (List.mem_cons_self _ _)
        have hhi := hex (highcut / (0.5 * fs))
          (List.mem_cons_of_mem _ (List.mem_singleton.mpr rfl))
        have hE : highcut / (0.5 * fs) ≤ lowcut / (0.5 * fs) := by
          by_contra hE
          exact hn ⟨hlo.1, hlo.2, hhi.1, hhi.2, not_le.mp hE⟩
        exact butter_error_low_ge_high order _ _ hlo.1 hlo.2 hhi.1 hhi.2 hE
  refine ⟨?_, ?_, ?_, ?_⟩
  · intro cutoff fs order
    simp only [butter_lowpass]
    exact single cutoff fs order BType.low (by decide)
  · intro cutoff fs order
    simp only [butter_highpass]
    exact single cutoff fs order BType.high (by decide)
  · intro order cutoff fs bt hbt
    simp only [butter_filter]
    exact single cutoff fs order bt hbt
  · intro lowcut highcut fs order
    simp only [butter_bandstop]
    exact pair lowcut highcut fs order

/-- C4 witness: a valid low-pass design succeeds, an above-Nyquist cutoff
fails, and reversed band edges fail, at concrete inputs. -/
theorem design_validation_witness :
    butter_lowpass 2.5 100 5 = Except.ok (butterCoeffs 5 [2.5 / (0.5 * 100)] BType.low) ∧
    butter_lowpass 60 100 5 = Except.error "InvalidParameter" ∧
    butter_bandstop 5 0.5 100 5 = Except.error "InvalidParameter" :=
  ⟨(design_validation.1 2.5 100 5).1 (by norm_num),
   (design_validation.1 60 100 5).2 (by norm_num),
   (design_validation.2.2.2 5 0.5 100 5).2 (by intro hc; have := hc.2.2.2.2; norm_num at this)⟩

theorem map_lfilter_ok_length {e : Except String (List ℝ × List ℝ)} {signal y : List ℝ}
    (h : e.map (fun ba => lfilter ba.1 ba.2 signal) = Except.ok y) :
    y.length = signal.length := by
  cases e with
  | error msg => exact Except.noConfusion h
  | ok ba =>
    simp only [Except.map] at h
    cases h
    exact lfilter_length ba.1 ba.2 signal

/-- C1: whenever filter application produces an output buffer, that buffer
has exactly the length of the input buffer — for apply_filter with every
recognized filter kind, and for apply_band_pass. -/
theorem filter_length_invariance :
    (∀ (signal : List ℝ) (filter_type : String) (cutoff fs : ℝ) (y : List ℝ),
        apply_filter signal filter_type cutoff fs = Except.ok y →
        y.length = signal.length) ∧
    (∀ (signal : List ℝ) (lowcut highcut fs : ℝ) (y : List ℝ),
        apply_band_pass signal lowcut highcut fs = Except.ok y →
        y.length = signal.length) := by
  constructor
  · intro signal ft cutoff fs y h
    unfold apply_filter at h
    split_ifs at h with h1 h2 h3 <;> exact map_lfilter_ok_length h
  · intro signal lowcut highcut fs y h
    unfold apply_band_pass at h
    split at h
    · exact Except.noConfusion h
    · split at h
      · exact Except.noConfusion h
      · cases h
        simp only [lfilter_length]

/-- C1 witness: a concrete low-pass run on a three-sample buffer succeeds
and keeps the length. -/
theorem filter_length_invariance_witness :
    ∃ y : List ℝ, apply_filter [1, 2, 3] "Low-Pass (RC)" 2.5 100 = Except.ok y ∧
      y.length = 3 := by
  have hbl : butter_lowpass 2.5 100 5 =
      Except.ok (butterCoeffs 5 [2.5 / (0.5 * 100)] BType.low) := by
    simp only [butter_lowpass]
    exact butter_ok_single 5 _ BType.low (by decide) (by norm_num) (by norm_num)
  have happ : apply_filter [1, 2, 3] "Low-Pass (RC)" 2.5 100 =
      Except.ok (lfilter (butterCoeffs 5 [2.5 / (0.5 * 100)] BType.low).1
        (butterCoeffs 5 [2.5 / (0.5 * 100)] BType.low).2 [1, 2, 3]) := by
    show (butter_lowpass 2.5 100 5).map (fun ba => lfilter ba.1 ba.2 [1, 2, 3]) = _
    rw [hbl]
    rfl
  exact ⟨_, happ, filter_length_invariance.1 [1, 2, 3] "Low-Pass (RC)" 2.5 100 _ happ⟩

/-- C8: zero-length inputs yield zero-length outputs and never an error:
signal generation over an empty time grid, noise injection of any kind into
an empty signal, filter application (with a recognized kind and otherwise
valid parameters) to an empty buffer, and spectral analysis of an empty
buffer. -/
theorem empty_buffer_behavior :
    (∀ (kind : String) (frequency : ℝ), generate_signal kind frequency [] = []) ∧
    (∀ (kind : String) (intensity : ℝ) (rng : RandomSource),
        add_noise [] kind intensity rng = []) ∧
    (∀ (cutoff fs : ℝ) (ft : String),
        ((ft = "Low-Pass (RC)" ∨ ft = "High-Pass (RC)") →
          0 < cutoff / (0.5 * fs) → cutoff / (0.5 * fs) < 1 →
          apply_filter [] ft cutoff fs = Except.ok []) ∧
        (ft = "Band-Stop" → 10 < fs → apply_filter [] ft cutoff fs = Except.ok [])) ∧
    (∀ fs : ℝ, process_signal_spectrum [] fs = []) := by
  refine ⟨?_, ?_, ?_, ?_⟩
  · intro kind frequency
    unfold generate_signal
    split_ifs <;> rfl
  · intro kind intensity rng
    unfold add_noise
    simp only [List.zipWith_nil_left]
  · intro cutoff fs ft
    constructor
    · rintro (rfl | rfl) h0 h1
      · show (butter_lowpass cutoff fs 5).map (fun ba => lfilter ba.1 ba.2 []) = Except.ok []
        simp only [butter_lowpass]
        rw [butter_ok_single 5 _ BType.low (by decide) h0 h1]
        rfl
      · show (butter_highpass cutoff fs 5).map (fun ba => lfilter ba.1 ba.2 []) = Except.ok []
        simp only [butter_highpass]
        rw [butter_ok_single 5 _ BType.high (by decide) h0 h1]
        rfl
    · rintro rfl hfs
      have hpos : (0 : ℝ) < 0.5 * fs := by linarith
      show (butter_bandstop 0.5 5 fs 5).map (fun ba => lfilter ba.1 ba.2 []) = Except.ok []
      simp only [butter_bandstop]
      rw [butter_ok_pair 5 _ _ (div_pos (by norm_num) hpos) ((div_lt_one hpos).mpr (by linarith))
        (div_pos (by norm_num) hpos) ((div_lt_one hpos).mpr (by linarith))
        ((div_lt_div_iff_of_pos_right hpos).mpr (by norm_num))]
      rfl
  · intro fs
    rfl

/-- C8 witness: the four empty-buffer cases at concrete parameters. -/
theorem empty_buffer_behavior_witness :
    generate_signal "sine" 5 [] = [] ∧
    add_noise [] "gaussian" 1 zeroRng = [] ∧
    apply_filter [] "Low-Pass (RC)" 2.5 100 = Except.ok [] ∧
    apply_filter [] "Band-Stop" 2.5 100 = Except.ok [] ∧
    process_signal_spectrum [] 100 = [] :=
  ⟨empty_buffer_behavior.1 "sine" 5,
   empty_buffer_behavior.2.1 "gaussian" 1 zeroRng,
   (empty_buffer_behavior.2.2.1 2.5 100 "Low-Pass (RC)").1 (Or.inl rfl)
     (by norm_num) (by norm_num),
   (empty_buffer_behavior.2.2.1 2.5 100 "Band-Stop").2 rfl (by norm_num),
   empty_buffer_behavior.2.2.2 100⟩

/-- C2: for a buffer of length N at sample rate fs, the spectral analysis of
process_signal returns exactly N / 2 (integer division, even and odd N
alike) entries, the k-th being the frequency k fs / N paired with the
magnitude 2 / N times abs of the k-th DFT coefficient of the full buffer. -/
theorem spectrum_first_half (signal : List ℝ) (fs : ℝ) (hfs : 0 < fs) :
    (process_signal_spectrum signal fs).length = signal.length / 2 ∧
    process_signal_spectrum signal fs =
      (List.range (signal.length / 2)).map fun k : ℕ =>
        ((k : ℝ) * fs / (signal.length : ℝ),
         2 / (signal.length : ℝ) * Complex.abs (dft signal k)) := by
  have hmain : process_signal_spectrum signal fs =
      (List.range (signal.length / 2)).map fun k : ℕ =>
        ((k : ℝ) * fs / (signal.length : ℝ),
         2 / (signal.length : ℝ) * Complex.abs (dft signal k)) := by
    simp only [process_signal_spectrum, fftfreq]
    rw [← List.map_take, ← List.map_take, List.take_range,
      Nat.min_eq_left (Nat.div_le_self _ _), List.zip_map']
    apply List.map_congr_left
    intro k hk
    rw [List.mem_range] at hk
    have hN : signal.length ≠ 0 := by omega
    have hcond : k < (signal.length - 1) / 2 + 1 := by omega
    rw [if_pos hcond]
    have hNr : ((signal.length : ℕ) : ℝ) ≠ 0 := Nat.cast_ne_zero.mpr hN
    have harith : (k : ℝ) * (1 / ((signal.length : ℝ) * (1 / fs))) =
        (k : ℝ) * fs / (signal.length : ℝ) := by
      field_simp
    rw [harith]
  exact ⟨by rw [hmain]; simp, hmain⟩

/-- C2 witness: the spectrum of a concrete odd-length buffer at sample rate
100 has the stated shape. -/
theorem spectrum_first_half_witness :
    (process_signal_spectrum [1, 0, 0] 100).length = List.length [1, 0, 0] / 2 ∧
    process_signal_spectrum [1, 0, 0] 100 =
      (List.range (List.length [1, 0, 0] / 2)).map fun k : ℕ =>
        ((k : ℝ) * 100 / (List.length [1, 0, 0] : ℝ),
         2 / (List.length [1, 0, 0] : ℝ) * Complex.abs (dft [1, 0, 0] k)) :=
  spectrum_first_half [1, 0, 0] 100 (by norm_num)

theorem buttap_re_neg (N : ℕ) : ∀ p ∈ buttap N, p.re < 0 := by
  intro p hp
  simp only [buttap, List.mem_map, List.mem_range] at hp
  obtain ⟨k, hk, rfl⟩ := hp
  have hπ := Real.pi_pos
  have hNpos : 0 < N := lt_of_le_of_lt (Nat.zero_le k) hk
  have hN : (0 : ℝ) < N := by exact_mod_cast hNpos
  have hkk : (0 : ℝ) ≤ k := Nat.cast_nonneg k
  have hk1n : k + 1 ≤ N := hk
  have hk1 : (k : ℝ) + 1 ≤ N := by exact_mod_cast hk1n
  have hre : (-Complex.exp (Complex.I * (buttapAngle N k : ℂ))).re =
      -Real.cos (buttapAngle N k) := by
    rw [Complex.neg_re, mul_comm, Complex.exp_ofReal_mul_I_re]
  rw [hre, neg_lt_zero]
  apply Real.cos_pos_of_mem_Ioo
  constructor
  · rw [buttapAngle]
    rw [lt_div_iff (by positivity : (0 : ℝ) < 2 * N)]
    nlinarith [mul_pos hπ (show (0 : ℝ) < 2 * (k : ℝ) + 1 by positivity)]
  · rw [buttapAngle]
    rw [div_lt_iff (by positivity : (0 : ℝ) < 2 * N)]
    nlinarith [mul_pos hπ (show (0 : ℝ) < 2 * (N : ℝ) - (2 * (k : ℝ) + 1) by linarith)]

theorem warped_pos (w : ℝ) (h0 : 0 < w) (h1 : w < 1) :
    0 < 2 * 2 * Real.tan (Real.pi * w / 2) := by
  have hπ := Real.pi_pos
  have harg0 : 0 < Real.pi * w / 2 := by positivity
  have harg1 : Real.pi * w / 2 < Real.pi / 2 := by nlinarith
  have := Real.tan_pos_of_pos_of_lt_pi_div_two harg0 harg1
  linarith

theorem re_ofReal_mul_neg {c : ℝ} (hc : 0 < c) {p : ℂ} (hp : p.re < 0) :
    ((c : ℂ) * p).re < 0 := by
  rw [Complex.re_ofReal_mul]
  exact mul_neg_of_pos_of_neg hc hp

theorem re_ofReal_div_neg {c : ℝ} (hc : 0 < c) {p : ℂ} (hp : p.re < 0) :
    ((c : ℂ) / p).re < 0 := by
  have hp0 : p ≠ 0 := by
    intro h
    rw [h, Complex.zero_re] at hp
    exact lt_irrefl 0 hp
  rw [Complex.div_re]
  simp only [Complex.ofReal_re, Complex.ofReal_im, zero_mul, zero_div, add_zero]
  exact div_neg_of_neg_of_pos (mul_neg_of_pos_of_neg hc hp) (Complex.normSq_pos.mpr hp0)

theorem bilinear_abs_lt_one {c p : ℂ} (hcre : 0 < c.re) (hcim : c.im = 0)
    (hp : p.re < 0) : Complex.abs ((c + p) / (c - p)) < 1 := by
  have hden : c - p ≠ 0 := by
    intro h
    have h2 : (c - p).re = 0 := by rw [h, Complex.zero_re]
    rw [Complex.sub_re] at h2
    linarith
  rw [map_div₀, div_lt_one ((Complex.abs).pos hden), Complex.abs_apply, Complex.abs_apply]
  apply Real.sqrt_lt_sqrt (Complex.normSq_nonneg _)
  simp only [Complex.normSq_apply, Complex.add_re, Complex.add_im, Complex.sub_re,
    Complex.sub_im]
  rw [hcim]
  nlinarith [mul_pos hcre (neg_pos.mpr hp)]

theorem butterZpk_poles_stable (order : ℕ) (w : ℝ) (h0 : 0 < w) (h1 : w < 1)
    (bt : BType) (hbt : bt = BType.low ∨ bt = BType.high) :
    ∀ q ∈ (butterZpk order [w] bt).2.1, Complex.abs q < 1 := by
  have hwp : 0 < 2 * 2 * Real.tan (Real.pi * w / 2) := warped_pos w h0 h1
  have hcre : (0 : ℝ) < (2 * ((2 : ℝ) : ℂ)).re := by
    simp [Complex.mul_re]
  have hcim : (2 * ((2 : ℝ) : ℂ)).im = 0 := by
    simp [Complex.mul_im]
  intro q hq
  rcases hbt with rfl | rfl
  · have hpoles : (butterZpk order [w] BType.low).2.1 =
        ((buttap order).map fun x =>
            ((2 * 2 * Real.tan (Real.pi * w / 2) : ℝ) : ℂ) * x).map
          fun x => (2 * ((2 : ℝ) : ℂ) + x) / (2 * ((2 : ℝ) : ℂ) - x) := rfl
    rw [hpoles, List.mem_map] at hq
    obtain ⟨x, hx, rfl⟩ := hq
    rw [List.mem_map] at hx
    obtain ⟨p, hp, rfl⟩ := hx
    exact bilinear_abs_lt_one hcre hcim (re_ofReal_mul_neg hwp (buttap_re_neg order p hp))
  · have hpoles : (butterZpk order [w] BType.high).2.1 =
        ((buttap order).map fun x =>
            ((2 * 2 * Real.tan (Real.pi * w / 2) : ℝ) : ℂ) / x).map
          fun x => (2 * ((2 : ℝ) : ℂ) + x) / (2 * ((2 : ℝ) : ℂ) - x) := rfl
    rw [hpoles, List.mem_map] at hq
    obtain ⟨x, hx, rfl⟩ := hq
    rw [List.mem_map] at hx
    obtain ⟨p, hp, rfl⟩ := hx
    exact bilinear_abs_lt_one hcre hcim (re_ofReal_div_neg hwp (buttap_re_neg order p hp))

/-- C3: for every order between 1 and 8 and every cutoff strictly between 0
and the Nyquist frequency 0.5 fs, the low-pass and high-pass Butterworth
designs (the designs behind butter_lowpass, butter_highpass and
butter_filter) are stable: every root of the denominator polynomial of the
designed transfer function — every pole — lies strictly inside the unit
circle. -/
theorem butter_design_stable (order : ℕ) (cutoff fs : ℝ) (h1o : 1 ≤ order)
    (h8 : order ≤ 8) (hc : 0 < cutoff) (hn : cutoff < 0.5 * fs) (bt : BType)
    (hbt : bt = BType.low ∨ bt = BType.high) (z : ℂ)
    (hz : (butterDenomPoly order [cutoff / (0.5 * fs)] bt).IsRoot z) :
    Complex.abs z < 1 := by
  have hfs : 0 < 0.5 * fs := lt_trans hc hn
  have h0 : 0 < cutoff / (0.5 * fs) := div_pos hc hfs
  have h1w : cutoff / (0.5 * fs) < 1 := (div_lt_one hfs).mpr hn
  have hz' : Polynomial.eval z
      ((butterZpk order [cutoff / (0.5 * fs)] bt).2.1.map fun p =>
        Polynomial.X - Polynomial.C p).prod = 0 := hz
  rw [Polynomial.eval_list_prod, List.map_map, List.prod_eq_zero_iff, List.mem_map] at hz'
  obtain ⟨p, hp, hzp⟩ := hz'
  simp only [Function.comp_apply, Polynomial.eval_sub, Polynomial.eval_X,
    Polynomial.eval_C] at hzp
  rw [sub_eq_zero] at hzp
  subst hzp
  exact butterZpk_poles_stable order _ h0 h1w bt hbt _ hp

theorem buttap_one : buttap 1 = [-1] := by
  have hang : buttapAngle 1 0 = 0 := by
    unfold buttapAngle
    norm_num
  have hr : List.range 1 = [0] := rfl
  unfold buttap
  rw [hr, List.map_cons, List.map_nil, hang]
  norm_num

theorem butterZpk_one_half_pole :
    (butterZpk 1 [25 / (0.5 * 100)] BType.low).2.1 = [0] := by
  have harg : Real.pi * (25 / (0.5 * 100)) / 2 = Real.pi / 4 := by ring
  have hw : 2 * 2 * Real.tan (Real.pi * (25 / (0.5 * 100)) / 2) = 4 := by
    rw [harg, Real.tan_pi_div_four]
    norm_num
  show (((buttap 1).map fun x =>
      ((2 * 2 * Real.tan (Real.pi * (25 / (0.5 * 100)) / 2) : ℝ) : ℂ) * x).map
    fun x => (2 * ((2 : ℝ) : ℂ) + x) / (2 * ((2 : ℝ) : ℂ) - x)) = [0]
  rw [buttap_one, hw]
  norm_num

theorem butterDenomPoly_one_half_root :
    (butterDenomPoly 1 [25 / (0.5 * 100)] BType.low).IsRoot 0 := by
  unfold butterDenomPoly
  rw [butterZpk_one_half_pole]
  simp [Polynomial.IsRoot]

/-- C3 witness: the order-1 low-pass design at normalized cutoff one half
(cutoff 25 Hz at sample rate 100 Hz) has its single pole at 0, a root of the
denominator polynomial, and that pole lies strictly inside the unit
circle. -/
theorem butter_design_stable_witness :
    (butterDenomPoly 1 [25 / (0.5 * 100)] BType.low).IsRoot 0 ∧
      Complex.abs 0 < 1 :=
  ⟨butterDenomPoly_one_half_root,
   butter_design_stable 1 25 100 (by norm_num) (by norm_num) (by norm_num) (by norm_num)
     BType.low (Or.inl rfl) 0 butterDenomPoly_one_half_root⟩

end SignalProcessing
